import Mathlib

/-!
Shallow embedding of the program-lifecycle addon implemented in
`src/src/lib.rs` (an addon that launches, tracks and terminates external
programs alongside a host process).

Modelling conventions:
* Strings are modelled at the character-list level.  The Unicode case
  mapping of Rust `str::to_lowercase` is modelled character-wise with
  `Char.toLower`, which agrees with it exactly on ASCII.  Byte indices of
  `str::rfind` become character indices (identical on ASCII).
* The filesystem and the OS process snapshot are explicit parameters
  (`FS`, `List Proc`); the real code queries the OS for them.
* `shell_words::split` is embedded as its POSIX word-splitting state
  machine (states Delimiter / Backslash / Unquoted / UnquotedBackslash /
  SingleQuoted / DoubleQuoted / DoubleQuotedBackslash).
* Purely informational log lines are projected away; log events that mark
  a control-flow outcome (parse failure, panic caught, lookup failure) and
  all externally visible actions (kill signals, spawns, pending-confirmation
  updates) are kept as explicit actions so that ordering claims can be
  stated.
-/

namespace ADAD

/-- The single quote character, written via its code point. -/
def squoteChar : Char := Char.ofNat 39

/-- The backtick character, written via its code point. -/
def btickChar : Char := Char.ofNat 96

/-- The double quote character, written via its code point. -/
def dqChar : Char := Char.ofNat 34

/-- The backslash character, written via its code point. -/
def bsChar : Char := Char.ofNat 92

/-- The newline character, written via its code point. -/
def nlChar : Char := Char.ofNat 10

/-- The tab character, written via its code point. -/
def tabChar : Char := Char.ofNat 9

/-- Lowercase every ASCII character of a string. -/
def asciiLowerStr (s : String) : String := ⟨s.data.map Char.toLower⟩

/-- Model of Rust `str::eq_ignore_ascii_case`. -/
def eqIgnoreAsciiCase (a b : String) : Bool := asciiLowerStr a == asciiLowerStr b

/-- Model of Rust `str::trim` (whitespace from both ends). -/
def trimChars (l : List Char) : List Char :=
  ((l.dropWhile Char.isWhitespace).reverse.dropWhile Char.isWhitespace).reverse

/-- The string form of `trimChars`. -/
def trimStr (s : String) : String := ⟨trimChars s.data⟩

/-- The parts of the filesystem the code consults: `Path::is_file` (used by
the command decomposer) and `Path::exists` (used by config validation). -/
structure FS where
  isFile : String → Bool
  pathExists : String → Bool

/-- States of the `shell_words::split` word-splitting automaton. -/
inductive SwSt where
  | delim
  | bslash
  | unq
  | unqBslash
  | squo
  | dquo
  | dquoBslash

/-- The three word-delimiting characters of `shell_words`. -/
def isShellSpace (c : Char) : Bool := c = ' ' || c = tabChar || c = nlChar

/-- The `shell_words::split` automaton: one step per input character, the
current word and the completed words as accumulators.  `none` models
`ParseError` (input ends inside a quoted region). -/
def shellSplitCore : SwSt → List Char → List Char → List (List Char) → Option (List (List Char))
  | .delim, [], _, ws => some ws
  | .delim, c :: cs, w, ws =>
    if c = squoteChar then shellSplitCore .squo cs w ws
    else if c = dqChar then shellSplitCore .dquo cs w ws
    else if c = bsChar then shellSplitCore .bslash cs w ws
    else if isShellSpace c then shellSplitCore .delim cs w ws
    else shellSplitCore .unq cs (w ++ [c]) ws
  | .bslash, [], w, ws => some (ws ++ [w ++ [bsChar]])
  | .bslash, c :: cs, w, ws =>
    if c = nlChar then shellSplitCore .delim cs w ws
    else shellSplitCore .unq cs (w ++ [c]) ws
  | .unq, [], w, ws => some (ws ++ [w])
  | .unq, c :: cs, w, ws =>
    if c = squoteChar then shellSplitCore .squo cs w ws
    else if c = dqChar then shellSplitCore .dquo cs w ws
    else if c = bsChar then shellSplitCore .unqBslash cs w ws
    else if isShellSpace c then shellSplitCore .delim cs [] (ws ++ [w])
    else shellSplitCore .unq cs (w ++ [c]) ws
  | .unqBslash, [], w, ws => some (ws ++ [w ++ [bsChar]])
  | .unqBslash, c :: cs, w, ws =>
    if c = nlChar then shellSplitCore .unq cs w ws
    else shellSplitCore .unq cs (w ++ [c]) ws
  | .squo, [], _, _ => none
  | .squo, c :: cs, w, ws =>
    if c = squoteChar then shellSplitCore .unq cs w ws
    else shellSplitCore .squo cs (w ++ [c]) ws
  | .dquo, [], _, _ => none
  | .dquo, c :: cs, w, ws =>
    if c = dqChar then shellSplitCore .unq cs w ws
    else if c = bsChar then shellSplitCore .dquoBslash cs w ws
    else shellSplitCore .dquo cs (w ++ [c]) ws
  | .dquoBslash, [], _, _ => none
  | .dquoBslash, c :: cs, w, ws =>
    if c = nlChar then shellSplitCore .dquo cs w ws
    else if c = '$' || c = btickChar || c = dqChar || c = bsChar then
      shellSplitCore .dquo cs (w ++ [c]) ws
    else shellSplitCore .dquo cs (w ++ [bsChar, c]) ws

/-- Model of `shell_words::split`. -/
def shellWordsSplit (s : String) : Option (List String) :=
  (shellSplitCore .delim s.data [] []).map (fun ws => ws.map (fun w => (⟨w⟩ : String)))

/-- Model of `Vec<String>::join(" ")`. -/
def joinSpace (l : List String) : String := String.intercalate " " l

/-- The `.exe` extension marker, lower case. -/
def exeMark : List Char := ['.', 'e', 'x', 'e']

/-- The `.com` extension marker, lower case. -/
def comMark : List Char := ['.', 'c', 'o', 'm']

/-- The `.bat` extension marker, lower case. -/
def batMark : List Char := ['.', 'b', 'a', 't']

/-- Rightmost index at which `pat` occurs in `hay`; model of `str::rfind`
for a fixed pattern (character indices; byte indices coincide on ASCII). -/
def rfindList (hay pat : List Char) : Option Nat :=
  (List.range (hay.length + 1)).foldl
    (fun acc i => if pat.isPrefixOf (hay.drop i) then some i else acc) none

/-- End index (exclusive) of the selected extension marker, mirroring
`rfind(".exe").map(+4).or_else(rfind(".com").map(+4)).or_else(rfind(".bat").map(+4))`
from `get_executable_and_args_from_command`. -/
def markerEnd (low : List Char) : Option Nat :=
  Option.orElse ((rfindList low exeMark).map (fun i => i + 4))
    (fun _ =>
      Option.orElse ((rfindList low comMark).map (fun i => i + 4))
        (fun _ => (rfindList low batMark).map (fun i => i + 4)))

/-- The shell-tokenization fallback arm of
`get_executable_and_args_from_command`: split the whole command, first
token is the executable, the rest are joined with spaces and re-split. -/
def fallbackSplit (cmd : String) : Option (String × List String) :=
  match shellWordsSplit cmd with
  | none => none
  | some [] => none
  | some (exe :: argsVec) =>
    match shellWordsSplit (joinSpace argsVec) with
    | none => none
    | some args => some (exe, args)

/-- Model of `get_executable_and_args_from_command` from `src/src/lib.rs`:
look for the rightmost `.exe` marker (else `.com`, else `.bat`) in the
lowercased command; if the prefix up to its end is a file on disk, split
there (prefix trimmed as the executable, suffix trimmed and shell-split as
the arguments, a failed split defaulting to no arguments); otherwise fall
back to shell tokenization of the whole command. -/
def get_executable_and_args_from_command (fs : FS) (cmd : String) :
    Option (String × List String) :=
  let cs := cmd.data
  match markerEnd (cs.map Char.toLower) with
  | some i =>
    if fs.isFile ⟨cs.take i⟩ then
      some (trimStr ⟨cs.take i⟩, (shellWordsSplit (trimStr ⟨cs.drop i⟩)).getD [])
    else fallbackSplit cmd
  | none => fallbackSplit cmd

/-- Test for an ASCII letter, used for the Windows drive prefix of a path. -/
def isAsciiAlpha (c : Char) : Bool :=
  ('A' ≤ c && c ≤ 'Z') || ('a' ≤ c && c ≤ 'z')

/-- Strip a Windows drive prefix such as `C:` from a character list. -/
def stripDrive (cs : List Char) : List Char :=
  match cs with
  | a :: b :: rest => if isAsciiAlpha a && b = ':' then rest else cs
  | _ => cs

/-- Path separators recognized on Windows. -/
def isSep (c : Char) : Bool := c = '/' || c = bsChar

/-- Split a character list at path separators. -/
def splitSeps (cs : List Char) : List (List Char) :=
  let r := cs.foldl
    (fun (acc : List (List Char) × List Char) c =>
      if isSep c then (acc.1 ++ [acc.2], []) else (acc.1, acc.2 ++ [c]))
    ([], [])
  r.1 ++ [r.2]

/-- Model of `Path::file_name` (Windows path semantics reduced to: strip a
drive prefix, split at separators, drop empty and `.` components, answer
the last component unless it is `..`). -/
def fileName (s : String) : Option String :=
  let comps := (splitSeps (stripDrive s.data)).filter
    (fun l => !(l == ([] : List Char)) && !(l == ['.']))
  match comps.getLast? with
  | none => none
  | some l => if l == ['.', '.'] then none else some ⟨l⟩

/-- Model of `get_program_name_from_command`: decompose, then take the
file name of the executable path. -/
def get_program_name_from_command (fs : FS) (cmd : String) : Option String :=
  match get_executable_and_args_from_command fs cmd with
  | some (exe, _) => fileName exe
  | none => none

/-- Model of `sanitize_identifier`: replace every space with an underscore. -/
def sanitize_identifier (s : String) : String :=
  ⟨s.data.map (fun c => if c = ' ' then '_' else c)⟩

/-- One process of the OS process-table snapshot. -/
structure Proc where
  pid : Nat
  name : String
deriving DecidableEq

/-- Termination actions the shutdown sequencer could issue.  The source
only ever produces `kill`; `exitSelf` (terminating the current process) is
included so that claims about host termination are statable. -/
inductive Act where
  | kill (pid : Nat) (name : String)
  | exitSelf
deriving DecidableEq

/-- Detect the self-termination action. -/
def isExitAct : Act → Bool
  | .exitSelf => true
  | _ => false

/-- Detect a kill of a process whose name is the hardcoded host name. -/
def killsHostB : Act → Bool
  | .kill _ n => eqIgnoreAsciiCase n "Gw2-64.exe"
  | .exitSelf => false

/-- The non-host targets of a teardown: `cleanup_processes` filters the
target list against the hardcoded host name `Gw2-64.exe`. -/
def safeTargets (targets : List String) : List String :=
  targets.filter (fun n => !eqIgnoreAsciiCase n "Gw2-64.exe")

/-- The host bucket of a shutdown plan (the partition named in the spec): targets
that name the host process. -/
def hostBucket (targets : List String) : List String :=
  targets.filter (fun n => eqIgnoreAsciiCase n "Gw2-64.exe")

/-- Model of `cleanup_processes`: drop host-named targets, stop if nothing
is left, else signal termination to every snapshot process whose name
matches a remaining target (projected to the list of kill actions issued,
in issue order). -/
def cleanup_processes (targets : List String) (procs : List Proc) : List Act :=
  let safe := safeTargets targets
  if safe.isEmpty then []
  else
    (safe.map (fun t =>
      (procs.filter (fun p => eqIgnoreAsciiCase p.name t)).map
        (fun p => Act.kill p.pid p.name))).flatten

/-- Launch triggers of a program descriptor. -/
inductive LaunchTrigger where
  | OnAddonLoad
  | OnKeybind
deriving DecidableEq

/-- Model of the `ProgramToLaunch` descriptor. -/
structure ProgramToLaunch where
  name : String
  display_name : String
  path : String
  trigger : LaunchTrigger
  close_on_unload : Bool
  show_in_quick_access : Bool
deriving DecidableEq

/-- Model of `Config`. -/
structure Config where
  programs_to_launch : List ProgramToLaunch
  programs_to_kill : List String
deriving DecidableEq

/-- Model of the legacy descriptor `LegacyProgramToLaunch`. -/
structure LegacyProgramToLaunch where
  name : String
  display_name : String
  path : String
  trigger : LaunchTrigger
  close_on_unload : Bool
  show_in_quick_access : Bool
deriving DecidableEq

/-- Model of `LegacyConfig`. -/
structure LegacyConfig where
  programs_to_launch : List LegacyProgramToLaunch
  programs_to_kill : List String
deriving DecidableEq

/-- One step of the kill-set computation in `unload`: append the
executable file name of the descriptor when `close_on_unload` is set, the name
is derivable and not already present (exact string comparison, as
`Vec::contains` does). -/
def killStep (fs : FS) (list : List String) (p : ProgramToLaunch) : List String :=
  if p.close_on_unload then
    match get_program_name_from_command fs p.path with
    | some fn => if fn ∈ list then list else list ++ [fn]
    | none => list
  else list

/-- Model of the kill-set computation in `unload`: start from the explicit
kill list and run `killStep` over the descriptors in order. -/
def computeKillList (fs : FS) (cfg : Config) : List String :=
  cfg.programs_to_launch.foldl (killStep fs) cfg.programs_to_kill

/-- Model of the termination behaviour of `unload`: compute the kill list and,
when it is non-empty, run `cleanup_processes` on it. -/
def unloadKillActions (fs : FS) (cfg : Config) (procs : List Proc) : List Act :=
  let kl := computeKillList fs cfg
  if kl.isEmpty then [] else cleanup_processes kl procs

/-- Externally visible effects of the launch pipeline (spawn, set the
pending-confirmation slot) together with the control-flow-relevant log
events (launch attempt, parse failure, lookup failure, panic caught). -/
inductive Eff where
  | logAttempt (cmd : String)
  | logParseFail
  | spawn (exe : String) (args : List String) (cwd : Option String)
  | setPending (cmd : String)
  | logNotFound (name : String)
  | logPanicCaught
deriving DecidableEq

/-- Detect a spawn effect. -/
def isSpawnEff : Eff → Bool
  | .spawn _ _ _ => true
  | _ => false

/-- Model of `Path::parent` restricted to what `force_launch_process`
needs: the part of the path before its last separator (`none` for an empty
path, the empty string for a bare file name, as in Rust). -/
def parentDir (s : String) : Option String :=
  match rfindList s.data ['/'] with
  | some i =>
    match rfindList s.data [bsChar] with
    | some j => some ⟨s.data.take (max i j)⟩
    | none => some ⟨s.data.take i⟩
  | none =>
    match rfindList s.data [bsChar] with
    | some j => some ⟨s.data.take j⟩
    | none => if s.data.isEmpty then none else some ""

/-- Model of `force_launch_process`: log the attempt; if the command does
not decompose, log the parse failure and stop without spawning; otherwise
spawn the decomposed executable with its arguments, the working directory
set to the parent directory of the executable. -/
def force_launch_process (fs : FS) (path : String) : List Eff :=
  Eff.logAttempt path ::
    match get_executable_and_args_from_command fs path with
    | none => [Eff.logParseFail]
    | some (exe, args) => [Eff.spawn exe args (parentDir exe)]

/-- Model of `is_process_running`: exact case-insensitive name match
against the process snapshot. -/
def is_process_running (procs : List Proc) (name : String) : Bool :=
  procs.any (fun p => eqIgnoreAsciiCase p.name name)

/-- Model of `launch_process`: if a file name can be derived and a process
of that name is running, store the command as the pending confirmation;
otherwise force-launch. -/
def launch_process (fs : FS) (procs : List Proc) (path : String) : List Eff :=
  match get_program_name_from_command fs path with
  | some fn =>
    if is_process_running procs fn then [Eff.setPending path]
    else force_launch_process fs path
  | none => force_launch_process fs path

/-- Model of `launch_process_by_name`: look the descriptor up by
identifier; launch it, or log the lookup failure. -/
def launch_process_by_name (fs : FS) (procs : List Proc) (cfg : Config)
    (name : String) : List Eff :=
  match cfg.programs_to_launch.find? (fun p => p.name == name) with
  | some p => launch_process fs procs p.path
  | none => [Eff.logNotFound name]

/-- The raw C-string argument of the keybind callback: null pointer,
non-UTF-8 bytes, or a decoded string. -/
inductive CRaw where
  | null
  | invalidUtf8
  | valid (s : String)
deriving DecidableEq

/-- Null test on the raw identifier. -/
def CRaw.isNull : CRaw → Bool
  | .null => true
  | _ => false

/-- The trigger-name marker stripped by the callback. -/
def launchMarker : List Char := "LAUNCH_".data

/-- Model of `str::strip_prefix("LAUNCH_")`. -/
def stripLaunchMarker (s : String) : Option String :=
  if launchMarker.isPrefixOf s.data then some ⟨s.data.drop launchMarker.length⟩
  else none

/-- The closure executed inside `panic::catch_unwind` in
`keybind_callback`: decode the identifier (a decode failure is a silent
no-op), strip the trigger marker and dispatch.  The dispatch is abstract
(`Except.error` modelling a panic raised inside the body) so that the
catch behaviour itself can be stated; the addon instantiates it with
`launch_process_by_name`, see `keybindDispatch`. -/
def keybindClosure (raw : CRaw) (dispatch : String → Except String (List Eff)) :
    Except String (List Eff) :=
  match raw with
  | .null => Except.ok []
  | .invalidUtf8 => Except.ok []
  | .valid s =>
    match stripLaunchMarker s with
    | some name => dispatch name
    | none => Except.ok []

/-- Model of `panic::catch_unwind` plus the error branch of
`keybind_callback`: a caught panic is converted into the critical log
line, a normal result is passed through; nothing propagates. -/
def catchUnwindLog (r : Except String (List Eff)) : List Eff :=
  match r with
  | .ok effs => effs
  | .error _ => [Eff.logPanicCaught]

/-- Model of `keybind_callback`: return immediately on a release event or
a null identifier, otherwise run the closure under the catch boundary. -/
def keybind_callback (raw : CRaw) (is_release : Bool)
    (dispatch : String → Except String (List Eff)) : List Eff :=
  if is_release || raw.isNull then []
  else catchUnwindLog (keybindClosure raw dispatch)

/-- The concrete dispatch used by the addon (a body that does not panic). -/
def keybindDispatch (fs : FS) (procs : List Proc) (cfg : Config) :
    String → Except String (List Eff) :=
  fun name => Except.ok (launch_process_by_name fs procs cfg name)

/-- Decimal digit character for a value below 10. -/
def decDigitChar (n : Nat) : Char := Char.ofNat (48 + n)

/-- Decimal digit characters of a natural number, most significant first;
the rendering `format!` applies to the uniquification counter. -/
def decDigits (n : Nat) : List Char :=
  if _h : n < 10 then [decDigitChar n]
  else decDigits (n / 10) ++ [decDigitChar (n % 10)]
decreasing_by exact Nat.div_lt_self (by omega) (by omega)

/-- A uniquification candidate `format!("{}_{}", base, k)`. -/
def candName (base : String) (k : Nat) : String :=
  ⟨base.data ++ '_' :: decDigits k⟩

/-- The candidate-probing loop of uniquification (`while
used.contains(final_name)`), run on explicit fuel; `uniquify` supplies
fuel that provably suffices (`uniquify_not_mem`), so the fuel-exhausted
arm is never reached. -/
def uniquifyGo (base : String) (used : List String) : Nat → Nat → String
  | 0, k => candName base k
  | fuel + 1, k =>
    if candName base k ∈ used then uniquifyGo base used fuel (k + 1)
    else candName base k

/-- Model of the identifier-uniquification loop shared by the legacy
migration (`From<LegacyConfig> for Config`) and by
`validate_and_cleanup_config`: keep `base` if unused, else try `base_2`,
`base_3`, … until an unused token is found. -/
def uniquify (base : String) (used : List String) : String :=
  if base ∈ used then uniquifyGo base used (used.length + 1) 2 else base

/-- Test, case sensitive, for a trailing `.exe`/`.com`/`.bat`, as
`ends_with` performs it during legacy-name cleaning. -/
def endsWithMark (s : String) : Bool :=
  exeMark.isSuffixOf s.data || comMark.isSuffixOf s.data || batMark.isSuffixOf s.data

/-- Model of the `rsplit_once` call on the dot character followed by `map_or`: drop the
last dot and everything after it, if a dot is present. -/
def dropAfterLastDot (s : String) : String :=
  match rfindList s.data ['.'] with
  | some i => ⟨s.data.take i⟩
  | none => s

/-- The cleaned identifier of a legacy descriptor (`From<LegacyProgramToLaunch>`):
strip a trailing extension marker if present, then sanitize. -/
def legacyCleanName (lp : LegacyProgramToLaunch) : String :=
  if endsWithMark lp.name then sanitize_identifier (dropAfterLastDot lp.name)
  else sanitize_identifier lp.name

/-- Model of `From<LegacyProgramToLaunch> for ProgramToLaunch`: clean the
identifier and backfill an empty display name from the file name of the
command, falling back to the cleaned identifier. -/
def legacyToProgram (fs : FS) (lp : LegacyProgramToLaunch) : ProgramToLaunch :=
  let nm := legacyCleanName lp
  let dn :=
    if lp.display_name = "" then
      match get_program_name_from_command fs lp.path with
      | some b => b
      | none => nm
    else lp.display_name
  { name := nm, display_name := dn, path := lp.path, trigger := lp.trigger,
    close_on_unload := lp.close_on_unload,
    show_in_quick_access := lp.show_in_quick_access }

/-- The descriptor loop of `From<LegacyConfig> for Config`: convert each
legacy descriptor in order, uniquifying its identifier against the names
already assigned in this pass. -/
def migrateGo (fs : FS) : List LegacyProgramToLaunch → List String → List ProgramToLaunch
  | [], _ => []
  | lp :: rest, used =>
    let p := legacyToProgram fs lp
    let fin := uniquify p.name used
    { p with name := fin } :: migrateGo fs rest (fin :: used)

/-- Model of `From<LegacyConfig> for Config`. -/
def configFromLegacy (fs : FS) (lc : LegacyConfig) : Config :=
  { programs_to_launch := migrateGo fs lc.programs_to_launch [],
    programs_to_kill := lc.programs_to_kill }

/-- The uniquification pass on a bare identifier sequence: the loop of
`migrateGo` (and of the rename step of `validate_and_cleanup_config`)
projected onto names, used to state re-running uniquification. -/
def uniquifyPassGo : List String → List String → List String
  | [], _ => []
  | b :: rest, used =>
    let f := uniquify b used
    f :: uniquifyPassGo rest (f :: used)

/-- Uniquification of a name sequence starting from no used names. -/
def uniquifyPass (names : List String) : List String := uniquifyPassGo names []

/-- Whether `validate_and_cleanup_config` retains a descriptor: it is
dropped exactly when its command decomposes and the resolved executable
path does not exist on disk. -/
def pathOkB (fs : FS) (p : ProgramToLaunch) : Bool :=
  match get_executable_and_args_from_command fs p.path with
  | some (exe, _) => fs.pathExists exe
  | none => true

/-- The display-name backfill of `validate_and_cleanup_config`: an empty
display name is replaced by the file name of the command, falling back to the
identifier. -/
def vDn (fs : FS) (p : ProgramToLaunch) : String :=
  if p.display_name = "" then
    match get_program_name_from_command fs p.path with
    | some b => b
    | none => p.name
  else p.display_name

/-- The identifier backfill of `validate_and_cleanup_config`: an empty
identifier is regenerated by sanitizing the file name of the command, falling
back to sanitizing the (already backfilled) display name. -/
def vNm (fs : FS) (p : ProgramToLaunch) : String :=
  if p.name = "" then
    match get_program_name_from_command fs p.path with
    | some b => sanitize_identifier b
    | none => sanitize_identifier (vDn fs p)
  else p.name

/-- The needs-save flag after processing one retained descriptor: the
source sets it at the display-name backfill, at the identifier backfill
and at a uniquification rename; the three sites are combined here. -/
def vNs (fs : FS) (p : ProgramToLaunch) (used : List String) (ns : Bool) : Bool :=
  if uniquify (vNm fs p) used ≠ vNm fs p then true
  else if p.name = "" then true
  else if p.display_name = "" then true
  else ns

/-- The `retain_mut` loop of `validate_and_cleanup_config`: drop
descriptors with non-existent resolved executables (without touching the
needs-save flag), backfill empty display names and identifiers and
uniquify the identifier against the retained names so far (setting the
flag via `vNs`). -/
def validateGo (fs : FS) : List ProgramToLaunch → List String → Bool →
    List ProgramToLaunch × Bool
  | [], _, ns => ([], ns)
  | p :: rest, used, ns =>
    if pathOkB fs p then
      let fin := uniquify (vNm fs p) used
      let r := validateGo fs rest (fin :: used) (vNs fs p used ns)
      ({ p with display_name := vDn fs p, name := fin } :: r.1, r.2)
    else validateGo fs rest used ns

/-- Model of `validate_and_cleanup_config`, returning the repaired config
together with the needs-save flag that decides whether the caller
persists it. -/
def validate_and_cleanup_config (fs : FS) (cfg : Config) : Config × Bool :=
  let r := validateGo fs cfg.programs_to_launch [] false
  ({ cfg with programs_to_launch := r.1 }, r.2)

/-- Modelled from the spec, for comparison with the source algorithm: the
end index of the rightmost occurrence of ANY of the three extension
markers (the reading the spec gives of the search, §4.1). -/
def markerEndSpec (low : List Char) : Option Nat :=
  ([rfindList low exeMark, rfindList low comMark, rfindList low batMark].filterMap
      (fun o => o.map (fun i => i + 4))).foldl
    (fun acc i =>
      match acc with
      | none => some i
      | some j => some (max i j)) none

/-- Modelled from the spec: `decompose` as §4.1 words it, splitting at the
rightmost occurrence of any marker when that prefix is a file, otherwise
falling back to shell tokenization.  Identical to the source version in
everything except the marker search. -/
def decomposeSpecC6 (fs : FS) (cmd : String) : Option (String × List String) :=
  let cs := cmd.data
  match markerEndSpec (cs.map Char.toLower) with
  | some i =>
    if fs.isFile ⟨cs.take i⟩ then
      some (trimStr ⟨cs.take i⟩, (shellWordsSplit (trimStr ⟨cs.drop i⟩)).getD [])
    else fallbackSplit cmd
  | none => fallbackSplit cmd

/-- The amended marker search: the rightmost `.exe` occurrence; only if
`.exe` is absent, the rightmost `.com`; only then the rightmost `.bat`. -/
def markerEndAmended (low : List Char) : Option Nat :=
  match rfindList low exeMark with
  | some i => some (i + 4)
  | none =>
    match rfindList low comMark with
    | some i => some (i + 4)
    | none =>
      match rfindList low batMark with
      | some i => some (i + 4)
      | none => none

/-- The amended decomposition algorithm of claim C6, written from the
amended wording. -/
def decomposeAmendedC6 (fs : FS) (cmd : String) : Option (String × List String) :=
  let cs := cmd.data
  match markerEndAmended (cs.map Char.toLower) with
  | some i =>
    if fs.isFile ⟨cs.take i⟩ then
      some (trimStr ⟨cs.take i⟩, (shellWordsSplit (trimStr ⟨cs.drop i⟩)).getD [])
    else fallbackSplit cmd
  | none => fallbackSplit cmd

/-- Characters that shell tokenization passes through unchanged. -/
def shellOrdinary (c : Char) : Bool :=
  !(isShellSpace c || c = squoteChar || c = dqChar || c = bsChar)

/-- A filesystem on which nothing exists. -/
def fsNone : FS := ⟨fun _ => false, fun _ => false⟩

/-- Filesystem for the C6 counterexample: both the full command string and
its `.exe` prefix exist as files. -/
def fsC6 : FS := ⟨fun s => s == "C:/a.exe b.com" || s == "C:/a.exe", fun _ => false⟩

/-- Filesystem for the C8 counterexample and witness: `C:/A.exe` exists. -/
def fsC8 : FS := ⟨fun s => s == "C:/A.exe", fun s => s == "C:/A.exe"⟩

/-- Config for the C8 counterexample: an explicit kill-list entry `a.exe`
and one close-on-unload descriptor whose executable is `C:/A.exe`. -/
def cfgC8 : Config :=
  { programs_to_launch :=
      [{ name := "A", display_name := "A", path := "C:/A.exe",
         trigger := .OnAddonLoad, close_on_unload := true,
         show_in_quick_access := true }],
    programs_to_kill := ["a.exe"] }

/-- Filesystem for the C4 witness: `C:/ok.exe` exists. -/
def fsOkC4 : FS := ⟨fun s => s == "C:/ok.exe", fun s => s == "C:/ok.exe"⟩

/-- A descriptor whose executable exists, for the C4 witness. -/
def progOkC4 : ProgramToLaunch :=
  { name := "ok", display_name := "ok", path := "C:/ok.exe",
    trigger := .OnAddonLoad, close_on_unload := false,
    show_in_quick_access := true }

/-- Config for the C4 witness. -/
def cfgOkC4 : Config := { programs_to_launch := [progOkC4], programs_to_kill := [] }

/-- Config for the C4 counterexample: a single valid-looking descriptor
whose executable path does not exist anywhere. -/
def cfgBadC4 : Config :=
  { programs_to_launch :=
      [{ name := "A", display_name := "A", path := "C:/gone.exe",
         trigger := .OnAddonLoad, close_on_unload := false,
         show_in_quick_access := true }],
    programs_to_kill := [] }

/-- A legacy descriptor named `Foo`, for the C9 witness. -/
def legacyFoo : LegacyProgramToLaunch :=
  { name := "Foo", display_name := "Foo", path := "C:/Foo.exe",
    trigger := .OnKeybind, close_on_unload := false,
    show_in_quick_access := true }

/-- A legacy config with three descriptors sharing the base name `Foo`. -/
def lcC9 : LegacyConfig :=
  { programs_to_launch := [legacyFoo, legacyFoo, legacyFoo], programs_to_kill := [] }

/-- A dispatch whose body panics, for the C3 witness. -/
def dispatchErr : String → Except String (List Eff) :=
  fun _ => Except.error "panicked"

/-- The command string of the C7 counterexample, a plain Windows path
containing backslash separators and no extension marker. -/
def c7Path : String := ⟨['C', ':', bsChar, 'a', 'b']⟩

/-- What the shell fallback actually makes of `c7Path`: the backslash acts
as a POSIX escape character and disappears. -/
def c7Mangled : String := "C:ab"

/-- Numeric value of a decimal digit character (inverse of
`decDigitChar` on digits). -/
def digitVal (c : Char) : Nat := c.toNat - 48

/-- Numeric value of a most-significant-first decimal digit list. -/
def valOfDigits (l : List Char) : Nat := l.foldl (fun a c => 10 * a + digitVal c) 0

theorem strMk_data (s : String) : (⟨s.data⟩ : String) = s := rfl

theorem eqIgnore_trans_ne (a b c : String) (h1 : eqIgnoreAsciiCase a b = true)
    (h2 : eqIgnoreAsciiCase b c = false) : eqIgnoreAsciiCase a c = false := by
  unfold eqIgnoreAsciiCase at h1 h2 ⊢
  rw [beq_iff_eq] at h1
  rw [beq_eq_false_iff_ne] at h2 ⊢
  rw [h1]
  exact h2

theorem mem_cleanup_iff (targets : List String) (procs : List Proc) (a : Act) :
    a ∈ cleanup_processes targets procs ↔
      ∃ t ∈ safeTargets targets, ∃ p ∈ procs,
        eqIgnoreAsciiCase p.name t = true ∧ a = Act.kill p.pid p.name := by
  unfold cleanup_processes
  by_cases h : (safeTargets targets).isEmpty
  · rw [if_pos h]
    rw [List.isEmpty_iff] at h
    simp [h]
  · rw [if_neg h]
    simp only [List.mem_flatten, List.mem_map, List.mem_filter]
    constructor
    · rintro ⟨l, ⟨t, ht, rfl⟩, hal⟩
      obtain ⟨p, hpf, rfl⟩ := List.mem_map.mp hal
      obtain ⟨hp, hm⟩ := List.mem_filter.mp hpf
      exact ⟨t, ht, p, hp, hm, rfl⟩
    · rintro ⟨t, ht, p, hp, hm, rfl⟩
      exact ⟨_, ⟨t, ht, rfl⟩, List.mem_map.mpr ⟨p, List.mem_filter.mpr ⟨hp, hm⟩, rfl⟩⟩

theorem mem_safeTargets (targets : List String) (t : String) :
    t ∈ safeTargets targets ↔
      t ∈ targets ∧ eqIgnoreAsciiCase t "Gw2-64.exe" = false := by
  unfold safeTargets
  rw [List.mem_filter]
  simp [Bool.not_eq_true']

/-- Claim C1 (corrected), counterexample to the original claim: a teardown
whose plan has a non-empty host bucket (`Gw2-64.exe` is a target) issues
its safe termination and then never terminates the current process, so
the claimed "terminates the current process as its last action if the
host bucket is non-empty" is false. -/
theorem c1_counterexample :
    hostBucket ["a.exe", "Gw2-64.exe"] ≠ [] ∧
    cleanup_processes ["a.exe", "Gw2-64.exe"] [⟨1, "a.exe"⟩] = [Act.kill 1 "a.exe"] ∧
    (cleanup_processes ["a.exe", "Gw2-64.exe"] [⟨1, "a.exe"⟩]).filter isExitAct = [] := by
  decide

/-- Claim C1 (amended): within one teardown the shutdown sequencer only
issues terminations of safe (non-host) targets and never terminates the
current process, whether or not the host bucket of the plan is non-empty;
host-named targets are excluded from termination entirely. -/
theorem c1_no_self_termination (targets : List String) (procs : List Proc) :
    (cleanup_processes targets procs).filter isExitAct = [] := by
  rw [List.filter_eq_nil_iff]
  intro a ha
  rw [mem_cleanup_iff] at ha
  obtain ⟨t, _, p, _, _, rfl⟩ := ha
  simp [isExitAct]

/-- Claim C2 (corrected), counterexample to the original claim: taking the
PID of the current process to be 7 (the source never queries that PID),
a snapshot process with PID 7 whose name matches the safe target
`foo.exe` is still signaled — the claimed PID-based self-exclusion does
not happen. -/
theorem c2_counterexample :
    cleanup_processes ["foo.exe"] [⟨7, "foo.exe"⟩] = [Act.kill 7 "foo.exe"] := by
  decide

/-- Claim C2 (amended): during the safe-termination step every process in
the snapshot whose name matches a safe target is signaled, regardless of
its PID — there is no PID-based self-exclusion; the only exclusion is of
targets named like the host. -/
theorem c2_no_pid_exclusion (targets : List String) (procs : List Proc)
    (p : Proc) (t : String) (hp : p ∈ procs) (ht : t ∈ targets)
    (hth : eqIgnoreAsciiCase t "Gw2-64.exe" = false)
    (hm : eqIgnoreAsciiCase p.name t = true) :
    Act.kill p.pid p.name ∈ cleanup_processes targets procs := by
  rw [mem_cleanup_iff]
  exact ⟨t, (mem_safeTargets targets t).mpr ⟨ht, hth⟩, p, hp, hm, rfl⟩

/-- Witness for C2 (amended) at a concrete snapshot. -/
theorem c2_witness :
    Act.kill 7 "foo.exe" ∈ cleanup_processes ["foo.exe"] [⟨7, "foo.exe"⟩] :=
  c2_no_pid_exclusion ["foo.exe"] [⟨7, "foo.exe"⟩] ⟨7, "foo.exe"⟩ "foo.exe"
    (by decide) (by decide) (by decide) (by decide)

/-- Claim C10 (confirmed): the shutdown cleanup step never signals
termination to a process whose name equals `Gw2-64.exe` up to ASCII case,
for every target list and snapshot. -/
theorem c10_host_never_killed (targets : List String) (procs : List Proc) :
    (cleanup_processes targets procs).filter killsHostB = [] := by
  rw [List.filter_eq_nil_iff]
  intro a ha
  rw [mem_cleanup_iff] at ha
  obtain ⟨t, ht, p, _, hm, rfl⟩ := ha
  obtain ⟨-, htf⟩ := (mem_safeTargets targets t).mp ht
  simp only [killsHostB, Bool.not_eq_true]
  exact eqIgnore_trans_ne p.name t "Gw2-64.exe" hm htf

/-- Claim C3 (confirmed): the callback entry point is a no-op on a release
event, a null identifier, or an unreadable (non-UTF-8) identifier, and a
failure raised inside its body never propagates: when the guarded closure
ends in a panic, the callback still returns normally, with the panic
converted into a log entry. -/
theorem c3_callback_boundary (raw : CRaw) (rel : Bool)
    (dispatch : String → Except String (List Eff)) :
    (rel = true → keybind_callback raw rel dispatch = []) ∧
    (raw = CRaw.null → keybind_callback raw rel dispatch = []) ∧
    (raw = CRaw.invalidUtf8 → keybind_callback raw rel dispatch = []) ∧
    (∀ msg, keybindClosure raw dispatch = Except.error msg →
      keybind_callback raw rel dispatch = [] ∨
        keybind_callback raw rel dispatch = [Eff.logPanicCaught]) := by
  refine ⟨?_, ?_, ?_, ?_⟩
  · rintro rfl
    simp [keybind_callback]
  · rintro rfl
    simp [keybind_callback, CRaw.isNull]
  · rintro rfl
    cases rel <;>
      simp [keybind_callback, CRaw.isNull, keybindClosure, catchUnwindLog]
  · intro msg hmsg
    cases rel
    · right
      cases raw with
      | null => exact absurd hmsg (by simp [keybindClosure])
      | invalidUtf8 => exact absurd hmsg (by simp [keybindClosure])
      | valid s =>
        simp only [keybind_callback, CRaw.isNull, Bool.false_or, if_neg Bool.false_ne_true]
        rw [hmsg]
        rfl
    · left
      simp [keybind_callback]

/-- Witness for C3 at a concrete identifier and a dispatch that panics. -/
theorem c3_witness :
    keybind_callback (CRaw.valid "LAUNCH_x") false dispatchErr = [] ∨
      keybind_callback (CRaw.valid "LAUNCH_x") false dispatchErr = [Eff.logPanicCaught] :=
  (c3_callback_boundary (CRaw.valid "LAUNCH_x") false dispatchErr).2.2.2 "panicked" rfl

/-- Claim C5 (corrected), counterexample to the original claim: the empty
command does not decompose, and the launch path then issues no spawn at
all — the undecomposable command is dropped with a parse-failure log, not
launched as-is. -/
theorem c5_counterexample :
    get_executable_and_args_from_command fsNone "" = none ∧
    launch_process fsNone [] "" = [Eff.logAttempt "", Eff.logParseFail] ∧
    (launch_process fsNone [] "").filter isSpawnEff = [] := by
  decide

/-- Claim C5 (amended): for every command on which decomposition fails,
`launch_process` falls through to the force-launch path, which logs the
attempt and the parse failure and performs no spawn. -/
theorem c5_no_spawn_on_parse_failure (fs : FS) (procs : List Proc) (cmd : String)
    (h : get_executable_and_args_from_command fs cmd = none) :
    launch_process fs procs cmd = [Eff.logAttempt cmd, Eff.logParseFail] := by
  unfold launch_process get_program_name_from_command force_launch_process
  rw [h]

/-- Witness for C5 (amended) at the empty command. -/
theorem c5_witness :
    launch_process fsNone [] "" = [Eff.logAttempt "", Eff.logParseFail] :=
  c5_no_spawn_on_parse_failure fsNone [] "" (by decide)

/-- Claim C6 (corrected), counterexample to the original claim: on the
command `C:/a.exe b.com` — where both the whole string and `C:/a.exe` are
existing files — the rightmost marker of any kind is the final `.com`, so
the claimed algorithm splits at the end of the string, while the source
prefers the rightmost `.exe` and splits after `C:/a.exe`. -/
theorem c6_counterexample :
    get_executable_and_args_from_command fsC6 "C:/a.exe b.com" =
        some ("C:/a.exe", ["b.com"]) ∧
    decomposeSpecC6 fsC6 "C:/a.exe b.com" = some ("C:/a.exe b.com", []) ∧
    get_executable_and_args_from_command fsC6 "C:/a.exe b.com" ≠
      decomposeSpecC6 fsC6 "C:/a.exe b.com" := by
  decide

theorem markerEnd_eq_amended (low : List Char) :
    markerEnd low = markerEndAmended low := by
  unfold markerEnd markerEndAmended
  cases rfindList low exeMark <;> cases rfindList low comMark <;>
    cases rfindList low batMark <;> rfl

/-- Claim C6 (amended): the decomposer searches case-insensitively for the
rightmost occurrence of `.exe`; only when `.exe` is absent does it search
for the rightmost `.com`, and only then for the rightmost `.bat`; if the
prefix up to and including the selected marker names an existing file it
splits there, and only otherwise falls back to shell tokenization. -/
theorem c6_marker_priority (fs : FS) (cmd : String) :
    get_executable_and_args_from_command fs cmd = decomposeAmendedC6 fs cmd := by
  unfold get_executable_and_args_from_command decomposeAmendedC6
  simp only [markerEnd_eq_amended]

theorem shellOrdinary_spec (c : Char) (h : shellOrdinary c = true) :
    isShellSpace c = false ∧ c ≠ squoteChar ∧ c ≠ dqChar ∧ c ≠ bsChar := by
  unfold shellOrdinary at h
  simp only [Bool.not_eq_true', Bool.or_eq_false_iff, decide_eq_false_iff_not] at h
  exact ⟨h.1.1.1, h.1.1.2, h.1.2, h.2⟩

theorem shellSplitCore_unq_ordinary (cs : List Char) :
    ∀ w ws, (∀ c ∈ cs, shellOrdinary c = true) →
      shellSplitCore .unq cs w ws = some (ws ++ [w ++ cs]) := by
  induction cs with
  | nil =>
    intro w ws _
    simp [shellSplitCore]
  | cons c cs ih =>
    intro w ws h
    obtain ⟨hsp, hsq, hdq, hbs⟩ := shellOrdinary_spec c (h c (by simp))
    simp only [shellSplitCore]
    rw [if_neg hsq, if_neg hdq, if_neg hbs, if_neg (by simp [hsp])]
    rw [ih (w ++ [c]) ws (fun x hx => h x (by simp [hx]))]
    simp

theorem shellWordsSplit_single (s : String) (h0 : s.data ≠ [])
    (h : ∀ c ∈ s.data, shellOrdinary c = true) :
    shellWordsSplit s = some [s] := by
  unfold shellWordsSplit
  obtain ⟨c, cs, hcs⟩ := List.exists_cons_of_ne_nil h0
  obtain ⟨hsp, hsq, hdq, hbs⟩ := shellOrdinary_spec c (h c (by rw [hcs]; simp))
  rw [hcs]
  simp only [shellSplitCore]
  rw [if_neg hsq, if_neg hdq, if_neg hbs, if_neg (by simp [hsp])]
  simp only [List.nil_append]
  rw [shellSplitCore_unq_ordinary cs [c] [] (fun x hx => h x (by rw [hcs]; simp [hx]))]
  simp [← hcs, strMk_data]

theorem fallbackSplit_single (s : String) (h0 : s.data ≠ [])
    (h : ∀ c ∈ s.data, shellOrdinary c = true) :
    fallbackSplit s = some (s, []) := by
  unfold fallbackSplit
  rw [shellWordsSplit_single s h0 h]
  rfl

/-- Claim C7 (corrected), counterexample to the original claim: the plain
Windows path `C:\ab` has no embedded extension marker and no arguments,
yet decomposition does not return it unchanged — the shell fallback
treats the backslash as a POSIX escape character and yields `C:ab`. -/
theorem c7_counterexample :
    get_executable_and_args_from_command fsNone c7Path = some (c7Mangled, []) ∧
    c7Path ≠ c7Mangled ∧
    get_executable_and_args_from_command fsNone c7Path ≠ some (c7Path, []) := by
  decide

/-- Claim C7 (amended): for every non-empty executable path string with no
embedded extension marker that consists of shell-ordinary characters (no
whitespace, quotes or backslashes), decomposition returns that same path
with an empty argument list, on every filesystem. -/
theorem c7_roundtrip_ordinary (fs : FS) (s : String) (h0 : s.data ≠ [])
    (h : ∀ c ∈ s.data, shellOrdinary c = true)
    (hm : markerEnd (s.data.map Char.toLower) = none) :
    get_executable_and_args_from_command fs s = some (s, []) := by
  unfold get_executable_and_args_from_command
  simp only [hm]
  exact fallbackSplit_single s h0 h

/-- Witness for C7 (amended) at a concrete marker-free path. -/
theorem c7_witness :
    get_executable_and_args_from_command fsNone "app" = some ("app", []) :=
  c7_roundtrip_ordinary fsNone "app" (by decide) (by decide) (by decide)

theorem vNs_true (fs : FS) (p : ProgramToLaunch) (used : List String) :
    vNs fs p used true = true := by
  unfold vNs
  simp [ite_self]

theorem validateGo_ns_mono (fs : FS) :
    ∀ (l : List ProgramToLaunch) (used : List String),
      (validateGo fs l used true).2 = true := by
  intro l
  induction l with
  | nil => intro used; rfl
  | cons p rest ih =>
    intro used
    unfold validateGo
    by_cases hp : pathOkB fs p = true
    · rw [if_pos hp]
      dsimp only
      rw [vNs_true]
      exact ih _
    · rw [if_neg hp]
      exact ih used

theorem validateGo_cons_pos (fs : FS) (p : ProgramToLaunch)
    (rest : List ProgramToLaunch) (used : List String) (ns : Bool)
    (hp : pathOkB fs p = true) :
    validateGo fs (p :: rest) used ns =
      ({ p with display_name := vDn fs p, name := uniquify (vNm fs p) used } ::
          (validateGo fs rest (uniquify (vNm fs p) used :: used) (vNs fs p used ns)).1,
        (validateGo fs rest (uniquify (vNm fs p) used :: used) (vNs fs p used ns)).2) := by
  rw [validateGo, if_pos hp]

theorem validateGo_cons_neg (fs : FS) (p : ProgramToLaunch)
    (rest : List ProgramToLaunch) (used : List String) (ns : Bool)
    (hp : ¬pathOkB fs p = true) :
    validateGo fs (p :: rest) used ns = validateGo fs rest used ns := by
  rw [validateGo, if_neg hp]

theorem validateGo_retained_ok (fs : FS) :
    ∀ (l : List ProgramToLaunch) (used : List String) (ns : Bool)
      (q : ProgramToLaunch), q ∈ (validateGo fs l used ns).1 →
      ∀ exe args,
        get_executable_and_args_from_command fs q.path = some (exe, args) →
        fs.pathExists exe = true := by
  intro l
  induction l with
  | nil =>
    intro used ns q hq
    simp [validateGo] at hq
  | cons p rest ih =>
    intro used ns q hq exe args hdec
    by_cases hp : pathOkB fs p = true
    · rw [validateGo_cons_pos fs p rest used ns hp] at hq
      dsimp only at hq
      rcases List.mem_cons.mp hq with hq | hq
      · subst hq
        have hdec' : get_executable_and_args_from_command fs p.path = some (exe, args) :=
          hdec
        unfold pathOkB at hp
        rw [hdec'] at hp
        exact hp
      · exact ih _ _ q hq exe args hdec
    · rw [validateGo_cons_neg fs p rest used ns hp] at hq
      exact ih _ _ q hq exe args hdec

theorem validateGo_unchanged (fs : FS) :
    ∀ (l : List ProgramToLaunch) (used : List String),
      (validateGo fs l used false).2 = false →
      (validateGo fs l used false).1 = l.filter (pathOkB fs) := by
  intro l
  induction l with
  | nil => intro used _; rfl
  | cons p rest ih =>
    intro used hns
    by_cases hp : pathOkB fs p = true
    · rw [validateGo_cons_pos fs p rest used false hp] at hns ⊢
      dsimp only at hns ⊢
      have hv : vNs fs p used false = false := by
        by_contra hvt
        rw [Bool.not_eq_false] at hvt
        rw [hvt, validateGo_ns_mono] at hns
        simp at hns
      rw [hv] at hns ⊢
      have hv' := hv
      unfold vNs at hv'
      by_cases hc1 : uniquify (vNm fs p) used ≠ vNm fs p
      · rw [if_pos hc1] at hv'
        simp at hv'
      rw [if_neg hc1] at hv'
      by_cases hc2 : p.name = ""
      · rw [if_pos hc2] at hv'
        simp at hv'
      rw [if_neg hc2] at hv'
      by_cases hc3 : p.display_name = ""
      · rw [if_pos hc3] at hv'
        simp at hv'
      have hnm : vNm fs p = p.name := by
        unfold vNm
        rw [if_neg hc2]
      have hdn : vDn fs p = p.display_name := by
        unfold vDn
        rw [if_neg hc3]
      have hfin : uniquify (vNm fs p) used = vNm fs p := not_not.mp hc1
      rw [List.filter_cons_of_pos (by simpa using hp)]
      congr 1
      · rw [hdn, hfin, hnm]
      · exact ih _ hns
    · rw [validateGo_cons_neg fs p rest used false hp] at hns ⊢
      rw [List.filter_cons_of_neg (by simpa using hp)]
      exact ih used hns

/-- Claim C4 (corrected), counterexample to the original claim: a registry
whose single descriptor points at a non-existent executable is repaired by
removing that descriptor, yet the needs-save flag comes back `false` — a
removal alone does not report `changed = true`. -/
theorem c4_counterexample :
    validate_and_cleanup_config fsNone cfgBadC4 =
      ({ programs_to_launch := [], programs_to_kill := [] }, false) := by
  decide

/-- Claim C4 (amended): `validate_and_cleanup_config` removes every
descriptor whose resolved executable path does not exist on disk (no
descriptor with a decomposable command and a missing executable survives),
and it reports `changed = true` only for the backfill and rename repairs:
when it reports `changed = false`, the output is exactly the input with
the missing-executable descriptors removed — so a removal by itself is not
reported to the caller. -/
theorem c4_validate_repairs (fs : FS) (cfg : Config) :
    (∀ q ∈ (validate_and_cleanup_config fs cfg).1.programs_to_launch,
      ∀ exe args,
        get_executable_and_args_from_command fs q.path = some (exe, args) →
        fs.pathExists exe = true) ∧
    ((validate_and_cleanup_config fs cfg).2 = false →
      (validate_and_cleanup_config fs cfg).1.programs_to_launch =
        cfg.programs_to_launch.filter (pathOkB fs)) := by
  constructor
  · intro q hq exe args hdec
    exact validateGo_retained_ok fs cfg.programs_to_launch [] false q hq exe args hdec
  · intro h
    exact validateGo_unchanged fs cfg.programs_to_launch [] h

/-- Witness for C4 (amended) at a concrete registry where the executable
of the descriptor exists. -/
theorem c4_witness :
    fsOkC4.pathExists "C:/ok.exe" = true ∧
    (validate_and_cleanup_config fsOkC4 cfgOkC4).1.programs_to_launch =
      cfgOkC4.programs_to_launch.filter (pathOkB fsOkC4) :=
  ⟨(c4_validate_repairs fsOkC4 cfgOkC4).1 progOkC4 (by decide) "C:/ok.exe" []
      (by decide),
    (c4_validate_repairs fsOkC4 cfgOkC4).2 (by decide)⟩

theorem killStep_cases (fs : FS) (acc : List String) (p : ProgramToLaunch) :
    killStep fs acc p = acc ∨
      ∃ fn, get_program_name_from_command fs p.path = some fn ∧
        p.close_on_unload = true ∧ fn ∉ acc ∧ killStep fs acc p = acc ++ [fn] := by
  unfold killStep
  by_cases hc : p.close_on_unload = true
  · rw [if_pos hc]
    cases hn : get_program_name_from_command fs p.path with
    | none => exact Or.inl rfl
    | some fn =>
      by_cases hm : fn ∈ acc
      · exact Or.inl (if_pos hm)
      · exact Or.inr ⟨fn, rfl, hc, hm, if_neg hm⟩
  · rw [if_neg hc]
    exact Or.inl rfl

theorem killStep_mem (fs : FS) (acc : List String) (p : ProgramToLaunch)
    (x : String) (hx : x ∈ acc) : x ∈ killStep fs acc p := by
  rcases killStep_cases fs acc p with h | ⟨fn, _, _, _, h⟩
  · rw [h]; exact hx
  · rw [h]; exact List.mem_append_left _ hx

theorem killFold_mem (fs : FS) :
    ∀ (l : List ProgramToLaunch) (acc : List String) (x : String),
      x ∈ acc → x ∈ l.foldl (killStep fs) acc := by
  intro l
  induction l with
  | nil => intro acc x hx; exact hx
  | cons p rest ih =>
    intro acc x hx
    exact ih (killStep fs acc p) x (killStep_mem fs acc p x hx)

theorem killStep_mem_fn (fs : FS) (acc : List String) (p : ProgramToLaunch)
    (fn : String) (hc : p.close_on_unload = true)
    (hn : get_program_name_from_command fs p.path = some fn) :
    fn ∈ killStep fs acc p := by
  unfold killStep
  rw [if_pos hc, hn]
  dsimp only
  by_cases hm : fn ∈ acc
  · rw [if_pos hm]; exact hm
  · rw [if_neg hm]; exact List.mem_append_right _ (List.mem_singleton.mpr rfl)

theorem killFold_shape (fs : FS) :
    ∀ (l : List ProgramToLaunch) (acc : List String),
      ∃ r, l.foldl (killStep fs) acc = acc ++ r ∧ r.Nodup ∧ ∀ x ∈ r, x ∉ acc := by
  intro l
  induction l with
  | nil =>
    intro acc
    exact ⟨[], by simp, List.nodup_nil, by simp⟩
  | cons p rest ih =>
    intro acc
    rcases killStep_cases fs acc p with h | ⟨fn, _, _, hfm, h⟩
    · obtain ⟨r, hr, hnd, hdisj⟩ := ih acc
      refine ⟨r, ?_, hnd, hdisj⟩
      simpa [h] using hr
    · obtain ⟨r, hr, hnd, hdisj⟩ := ih (acc ++ [fn])
      refine ⟨fn :: r, ?_, ?_, ?_⟩
      · have : List.foldl (killStep fs) (killStep fs acc p) rest =
            (acc ++ [fn]) ++ r := by rw [h]; exact hr
        simpa [List.append_assoc] using this
      · refine List.nodup_cons.mpr ⟨?_, hnd⟩
        intro hmem
        exact (hdisj fn hmem) (List.mem_append_right _ (List.mem_singleton.mpr rfl))
      · intro x hx
        rcases List.mem_cons.mp hx with rfl | hx
        · exact hfm
        · intro hxa
          exact (hdisj x hx) (List.mem_append_left _ hxa)

theorem killFold_mem_of_prog (fs : FS) :
    ∀ (l : List ProgramToLaunch) (acc : List String) (p : ProgramToLaunch),
      p ∈ l → p.close_on_unload = true →
      ∀ fn, get_program_name_from_command fs p.path = some fn →
        fn ∈ l.foldl (killStep fs) acc := by
  intro l
  induction l with
  | nil => intro acc p hp; exact absurd hp (List.not_mem_nil p)
  | cons q rest ih =>
    intro acc p hp hc fn hn
    rcases List.mem_cons.mp hp with rfl | hp
    · exact killFold_mem fs rest (killStep fs acc p) fn
        (killStep_mem_fn fs acc p fn hc hn)
    · exact ih (killStep fs acc q) p hp hc fn hn

/-- Claim C8 (corrected), counterexample to the original claim: the kill
list `["a.exe"]` plus a close-on-unload descriptor resolving to `A.exe`
produces the kill set `["a.exe", "A.exe"]`, which contains two entries
equal up to ASCII case — the deduplication is not case-insensitive. -/
theorem c8_counterexample :
    computeKillList fsC8 cfgC8 = ["a.exe", "A.exe"] ∧
    eqIgnoreAsciiCase "a.exe" "A.exe" = true := by
  decide

/-- Claim C8 (amended): the computed shutdown kill set is the explicit
kill list (kept as-is, not deduplicated) followed by the executable file
names of the close-on-unload descriptors in order, each appended only if
not already present under exact case-sensitive comparison: the appended
part is duplicate-free and disjoint from the explicit kill list, and every
derivable close-on-unload file name is in the set. -/
theorem c8_kill_set_structure (fs : FS) (cfg : Config) :
    (∃ r, computeKillList fs cfg = cfg.programs_to_kill ++ r ∧ r.Nodup ∧
      ∀ x ∈ r, x ∉ cfg.programs_to_kill) ∧
    (∀ p ∈ cfg.programs_to_launch, p.close_on_unload = true →
      ∀ fn, get_program_name_from_command fs p.path = some fn →
        fn ∈ computeKillList fs cfg) :=
  ⟨killFold_shape fs cfg.programs_to_launch cfg.programs_to_kill,
    fun p hp hc fn hn =>
      killFold_mem_of_prog fs cfg.programs_to_launch cfg.programs_to_kill p hp hc fn hn⟩

/-- Witness for C8 (amended) at the concrete registry of the
counterexample. -/
theorem c8_witness : "A.exe" ∈ computeKillList fsC8 cfgC8 :=
  (c8_kill_set_structure fsC8 cfgC8).2
    { name := "A", display_name := "A", path := "C:/A.exe",
      trigger := .OnAddonLoad, close_on_unload := true,
      show_in_quick_access := true }
    (by decide) (by decide) "A.exe" (by decide)

theorem digitVal_decDigitChar (m : Nat) (h : m < 10) :
    digitVal (decDigitChar m) = m := by
  interval_cases m <;> decide

theorem valOfDigits_append (l : List Char) (c : Char) :
    valOfDigits (l ++ [c]) = 10 * valOfDigits l + digitVal c := by
  unfold valOfDigits
  rw [List.foldl_append]
  rfl

theorem valOfDigits_decDigits (n : Nat) : valOfDigits (decDigits n) = n := by
  induction n using Nat.strong_induction_on with
  | _ n ih =>
    rw [decDigits]
    split
    · next h =>
      have hs : valOfDigits [decDigitChar n] = digitVal (decDigitChar n) := by
        unfold valOfDigits
        simp [List.foldl]
      rw [hs, digitVal_decDigitChar n h]
    · next h =>
      rw [valOfDigits_append,
        ih (n / 10) (Nat.div_lt_self (by omega) (by omega)),
        digitVal_decDigitChar (n % 10) (Nat.mod_lt _ (by omega))]
      omega

theorem decDigits_inj (m n : Nat) (h : decDigits m = decDigits n) : m = n := by
  have hv := congrArg valOfDigits h
  rwa [valOfDigits_decDigits, valOfDigits_decDigits] at hv

theorem candName_inj (b : String) (j k : Nat) (h : candName b j = candName b k) :
    j = k := by
  unfold candName at h
  have hd : b.data ++ '_' :: decDigits j = b.data ++ '_' :: decDigits k :=
    congrArg String.data h
  have hc := List.append_cancel_left hd
  injection hc with _ htail
  exact decDigits_inj j k htail

theorem exists_free_cand (b : String) (used : List String) :
    ∃ i, i < used.length + 1 ∧ candName b (2 + i) ∉ used := by
  by_contra hall
  push_neg at hall
  have hinj : Function.Injective (fun i => candName b (2 + i)) := by
    intro i j hij
    have := candName_inj b (2 + i) (2 + j) hij
    omega
  have hsub : ((List.range (used.length + 1)).map (fun i => candName b (2 + i))) ⊆
      used := by
    intro x hx
    obtain ⟨i, hi, rfl⟩ := List.mem_map.mp hx
    exact hall i (List.mem_range.mp hi)
  have hnd : ((List.range (used.length + 1)).map (fun i => candName b (2 + i))).Nodup :=
    (List.nodup_range _).map hinj
  have hle := (List.Nodup.subperm hnd hsub).length_le
  simp only [List.length_map, List.length_range] at hle
  omega

theorem uniquifyGo_not_mem (b : String) (used : List String) :
    ∀ (fuel k : Nat), (∃ i, i < fuel ∧ candName b (k + i) ∉ used) →
      uniquifyGo b used fuel k ∉ used := by
  intro fuel
  induction fuel with
  | zero =>
    rintro k ⟨i, hi, -⟩
    omega
  | succ fuel ih =>
    rintro k ⟨i, hi, hfree⟩
    unfold uniquifyGo
    by_cases hm : candName b k ∈ used
    · rw [if_pos hm]
      apply ih (k + 1)
      cases i with
      | zero => exact absurd hm (by simpa using hfree)
      | succ i =>
        refine ⟨i, by omega, ?_⟩
        rwa [show k + 1 + i = k + (i + 1) by omega]
    · rw [if_neg hm]
      exact hm

theorem uniquify_not_mem (b : String) (used : List String) :
    uniquify b used ∉ used := by
  unfold uniquify
  by_cases hb : b ∈ used
  · rw [if_pos hb]
    obtain ⟨i, hi, hfree⟩ := exists_free_cand b used
    exact uniquifyGo_not_mem b used (used.length + 1) 2 ⟨i, hi, hfree⟩
  · rw [if_neg hb]
    exact hb

theorem uniquify_id (b : String) (used : List String) (hb : b ∉ used) :
    uniquify b used = b := by
  unfold uniquify
  rw [if_neg hb]

theorem uniquifyPassGo_spec :
    ∀ (names used : List String),
      (uniquifyPassGo names used).Nodup ∧
        ∀ x ∈ uniquifyPassGo names used, x ∉ used := by
  intro names
  induction names with
  | nil =>
    intro used
    exact ⟨List.nodup_nil, by simp [uniquifyPassGo]⟩
  | cons b rest ih =>
    intro used
    unfold uniquifyPassGo
    dsimp only
    obtain ⟨hnd, hdisj⟩ := ih (uniquify b used :: used)
    constructor
    · refine List.nodup_cons.mpr ⟨?_, hnd⟩
      intro hmem
      exact (hdisj _ hmem) (List.mem_cons_self _ _)
    · intro x hx
      rcases List.mem_cons.mp hx with rfl | hx
      · exact uniquify_not_mem b used
      · intro hxu
        exact (hdisj x hx) (List.mem_cons_of_mem _ hxu)

theorem uniquifyPassGo_noop :
    ∀ (names used : List String), names.Nodup → (∀ x ∈ names, x ∉ used) →
      uniquifyPassGo names used = names := by
  intro names
  induction names with
  | nil =>
    intro used _ _
    rfl
  | cons b rest ih =>
    intro used hnd hdisj
    obtain ⟨hbr, hndr⟩ := List.nodup_cons.mp hnd
    have hb : b ∉ used := hdisj b (List.mem_cons_self _ _)
    unfold uniquifyPassGo
    dsimp only
    rw [uniquify_id b used hb]
    congr 1
    apply ih (b :: used) hndr
    intro x hx hxc
    rcases List.mem_cons.mp hxc with rfl | hxu
    · exact hbr hx
    · exact (hdisj x (List.mem_cons_of_mem _ hx)) hxu

theorem migrateGo_names (fs : FS) :
    ∀ (l : List LegacyProgramToLaunch) (used : List String),
      (migrateGo fs l used).map (fun p => p.name) =
        uniquifyPassGo (l.map (fun lp => (legacyToProgram fs lp).name)) used := by
  intro l
  induction l with
  | nil =>
    intro used
    rfl
  | cons lp rest ih =>
    intro used
    unfold migrateGo uniquifyPassGo
    dsimp only [List.map_cons]
    rw [ih]

theorem migrateGo_length (fs : FS) :
    ∀ (l : List LegacyProgramToLaunch) (used : List String),
      (migrateGo fs l used).length = l.length := by
  intro l
  induction l with
  | nil =>
    intro used
    rfl
  | cons lp rest ih =>
    intro used
    unfold migrateGo
    dsimp only [List.length_cons]
    rw [ih]

/-- Claim C9 (confirmed): for a legacy registry whose descriptors all
share one base identifier, the in-order uniquification of the migration yields
pairwise-distinct identifiers, one per descriptor, and re-running the
uniquification pass over the resulting identifier sequence changes no
identifier. -/
theorem c9_uniquification (fs : FS) (lc : LegacyConfig) (b : String)
    (_hb : ∀ lp ∈ lc.programs_to_launch, legacyCleanName lp = b) :
    ((configFromLegacy fs lc).programs_to_launch.map (fun p => p.name)).Nodup ∧
    (configFromLegacy fs lc).programs_to_launch.length =
      lc.programs_to_launch.length ∧
    uniquifyPass ((configFromLegacy fs lc).programs_to_launch.map (fun p => p.name)) =
      (configFromLegacy fs lc).programs_to_launch.map (fun p => p.name) := by
  have hnames : (configFromLegacy fs lc).programs_to_launch.map (fun p => p.name) =
      uniquifyPassGo
        (lc.programs_to_launch.map (fun lp => (legacyToProgram fs lp).name)) [] :=
    migrateGo_names fs lc.programs_to_launch []
  refine ⟨?_, migrateGo_length fs lc.programs_to_launch [], ?_⟩
  · rw [hnames]
    exact (uniquifyPassGo_spec _ []).1
  · unfold uniquifyPass
    apply uniquifyPassGo_noop
    · rw [hnames]
      exact (uniquifyPassGo_spec _ []).1
    · intro x _ hx
      simp at hx

/-- Witness for C9 at a legacy registry with three descriptors sharing the
base name `Foo`. -/
theorem c9_witness :
    ((configFromLegacy fsNone lcC9).programs_to_launch.map (fun p => p.name)).Nodup ∧
    (configFromLegacy fsNone lcC9).programs_to_launch.length =
      lcC9.programs_to_launch.length ∧
    uniquifyPass ((configFromLegacy fsNone lcC9).programs_to_launch.map (fun p => p.name)) =
      (configFromLegacy fsNone lcC9).programs_to_launch.map (fun p => p.name) :=
  c9_uniquification fsNone lcC9 "Foo" (by decide)

end ADAD
